import Mathlib

set_option maxRecDepth 16384

/-!
Shallow embedding of the `ups` crate (`src/ups/src/lib.rs`): a UPS binary
patch parser and applier.  Byte buffers are `List Nat` with values below 256;
`usize` arithmetic is unbounded `Nat` (the source's additions and shifts are
mathematically exact on all inputs reachable without a Rust overflow panic).
Rust slice indexing `target[i..]` panics when `i > len`; that panic is
modelled as `none` in `replay` / `apply_patch_with`.
-/

/-- Error enum from `src/ups/src/lib.rs`. -/
inductive Error where
  | MissingHeader
  | MalformedPatch
  | CrcMismatchOriginal
  | CrcMismatchPatch
  | CrcMismatchTarget
deriving DecidableEq, Repr

/-- `Options { skip_crc: bool }` from the source. -/
structure Options where
  skip_crc : Bool
deriving DecidableEq, Repr

/-- `UpsPatch` metadata struct from the source. -/
structure UpsPatch where
  source_size : Nat
  target_size : Nat
  source_crc : Nat
  target_crc : Nat
  patch_crc : Nat
deriving DecidableEq, Repr

/-- `UpsSection`: one body record, `take` bytes copied then `xor` bytes XORed. -/
structure UpsSection where
  take : Nat
  xor : List Nat
deriving DecidableEq, Repr

/-- The enumerated `try_fold` loop inside `read_vuint`: `idx` is the position
of the head of the remaining list in the original input, `acc` the running
accumulator. A byte with the high bit set terminates with
`(idx + 1, acc + ((x &&& 0x7f) <<< (7*idx)))`; a byte with the high bit clear
adds `(x ||| 0x80) <<< (7*idx)` and continues. -/
def read_vuint_go : List Nat → Nat → Nat → Option (Nat × Nat)
  | [], _, _ => none
  | x :: rest, idx, acc =>
    if x &&& 0x80 ≠ 0 then
      some (idx + 1, acc + ((x &&& 0x7f) <<< (7 * idx)))
    else
      read_vuint_go rest (idx + 1) (acc + ((x ||| 0x80) <<< (7 * idx)))

/-- `read_vuint` from the source: `-> (consumed bytes, value)`. -/
def read_vuint (input : List Nat) : Option (Nat × Nat) :=
  read_vuint_go input 0 0

/-- Little-endian u32 from the first four bytes of a list, as
`u32::from_le_bytes(patch[o..o+4])` reads the four bytes at offset `o`. -/
def u32le (l : List Nat) : Nat :=
  l.getD 0 0 + 2 ^ 8 * l.getD 1 0 + 2 ^ 16 * l.getD 2 0 + 2 ^ 24 * l.getD 3 0

/-- `parse_patch` from the source.  Returns the metadata together with the
body slice `patch[offset .. len-12]` (the `UpsSectionIter`'s data). -/
def parse_patch (patch : List Nat) : Except Error (UpsPatch × List Nat) :=
  if patch.take 4 = [0x55, 0x50, 0x53, 0x31] then
    match read_vuint (patch.drop 4) with
    | none => .error .MalformedPatch
    | some (s_used, source_size) =>
      match read_vuint (patch.drop (4 + s_used)) with
      | none => .error .MalformedPatch
      | some (t_used, target_size) =>
        let offset := 4 + s_used + t_used
        if patch.length < offset + 12 then .error .MalformedPatch
        else
          .ok ({ source_size := source_size, target_size := target_size,
                 source_crc := u32le (patch.drop (patch.length - 12)),
                 target_crc := u32le (patch.drop (patch.length - 8)),
                 patch_crc := u32le (patch.drop (patch.length - 4)) },
               (patch.drop offset).take (patch.length - 12 - offset))
  else .error .MissingHeader

/-- One reflected-CRC bit step: shift right, conditionally XOR the
CRC-32 polynomial 0xEDB88320. -/
def crc32_step (c : Nat) : Nat :=
  if c % 2 = 1 then (c / 2) ^^^ 0xEDB88320 else c / 2

/-- Fold one byte into the running CRC: XOR it in, then eight bit steps. -/
def crc32_byte (c b : Nat) : Nat := crc32_step^[8] (c ^^^ b)

/-- Modelled from the spec: the checksum algorithm is "standard CRC-32,
ISO-HDLC" (the source delegates to the external `crc` crate's
`CRC_32_ISO_HDLC`, which is not part of this repository).  Reflected
CRC-32: init `0xFFFFFFFF`, reflected polynomial `0xEDB88320`, final XOR
`0xFFFFFFFF`. -/
def crc32 (data : List Nat) : Nat :=
  (data.foldl crc32_byte 0xFFFFFFFF) ^^^ 0xFFFFFFFF

/-- `verify_crc` from the source, as a boolean check. -/
def verify_crc (data : List Nat) (expected : Nat) : Bool :=
  crc32 data = expected

/-- `xor_slice` from the source: XOR the first `min` length bytes of `left`
with `right` elementwise, leaving the rest of `left` unchanged. -/
def xor_slice : List Nat → List Nat → List Nat
  | l, [] => l
  | [], _ :: _ => []
  | a :: l, b :: r => (a ^^^ b) :: xor_slice l r

/-- `Vec::resize(n, 0)`: truncate to `n` or extend with zero bytes. -/
def resize (v : List Nat) (n : Nat) : List Nat :=
  if n ≤ v.length then v.take n else v ++ List.replicate (n - v.length) 0

/-- `xor_slice(&mut target[i..], x)` for `i ≤ target.length`: XOR `x` into
`t` starting at position `i`. -/
def xorInto (t : List Nat) (i : Nat) (x : List Nat) : List Nat :=
  t.take i ++ xor_slice (t.drop i) x

/-- The body scan inside `UpsSectionIter::next`: walk forward and return the
span up to and including the first zero byte, together with the remaining
bytes; `none` when the data is exhausted before a zero byte. -/
def scanZero : List Nat → Option (List Nat × List Nat)
  | [] => none
  | x :: rest =>
    if x = 0 then some ([x], rest)
    else
      match scanZero rest with
      | none => none
      | some (xor, r) => some (x :: xor, r)

/-- `UpsSectionIter::next`, with the iterator state `{data, offset}`
represented by the suffix `data[offset..]`: decode a `take` varint, then scan
to the first zero byte; yield the section and the new suffix. -/
def UpsSectionIter.next (data : List Nat) : Option (UpsSection × List Nat) :=
  match read_vuint data with
  | none => none
  | some (consumed, take) =>
    match scanZero (data.drop consumed) with
    | none => none
    | some (xor, rest) => some ({ take := take, xor := xor }, rest)

/-- Fuel-bounded unfolding of the iterator (each yielded section consumes at
least two bytes, so `data.length + 1` fuel is always sufficient; see
`sections_eq`). -/
def sectionsFuel : Nat → List Nat → List UpsSection
  | 0, _ => []
  | fuel + 1, data =>
    match UpsSectionIter.next data with
    | none => []
    | some (s, rest) => s :: sectionsFuel fuel rest

/-- All sections yielded, in order, by iterating `UpsSectionIter::next` on a
body slice. -/
def sections (data : List Nat) : List UpsSection :=
  sectionsFuel (data.length + 1) data

/-- The `it.fold` inside `apply_patch_with`: apply each section at the running
write cursor.  `xor_slice(&mut target[write_offset + it.take..], it.xor)`
panics when `write_offset + it.take > target.len()`; the panic is `none`. -/
def replay : List Nat → Nat → List UpsSection → Option (List Nat × Nat)
  | t, c, [] => some (t, c)
  | t, c, s :: rest =>
    if c + s.take ≤ t.length then
      replay (xorInto t (c + s.take) s.xor) (c + s.take + s.xor.length) rest
    else none

/-- `apply_patch_with` from the source.  The outer `Option` models a Rust
panic inside the fold (`none`); the `Except` is the source's `Result`. -/
def apply_patch_with (o : Options) (source patch : List Nat) :
    Option (Except Error (List Nat)) :=
  match parse_patch patch with
  | .error e => some (.error e)
  | .ok (p, body) =>
    if !o.skip_crc && !verify_crc source p.source_crc then
      some (.error .CrcMismatchOriginal)
    else if !o.skip_crc && !verify_crc (patch.take (patch.length - 4)) p.patch_crc then
      some (.error .CrcMismatchPatch)
    else
      match replay (resize source (max p.source_size p.target_size)) 0 (sections body) with
      | none => none
      | some (target, _) =>
        if !o.skip_crc && !verify_crc target p.target_crc then
          some (.error .CrcMismatchTarget)
        else some (.ok target)

/-- `apply_patch` from the source: `apply_patch_with(Default::default(), ..)`,
and `Options::default()` has `skip_crc = false`. -/
def apply_patch (source patch : List Nat) : Option (Except Error (List Nat)) :=
  apply_patch_with { skip_crc := false } source patch

/-- The hand-constructed minimal patch of the concrete scenario: "UPS1",
source_size = 4 (0x84), target_size = 4 (0x84), one record (copy_length 0,
xor bytes [0x01, 0x00]), then CRC32("AAAA") = 0x9B0D08F1,
CRC32 of 0x40 0x41 0x41 0x41 = 0x23B16F94, and the patch CRC 0xB9750CE3,
each little-endian. -/
def patchAAAA : List Nat :=
  [0x55, 0x50, 0x53, 0x31, 0x84, 0x84, 0x80, 0x01, 0x00,
   0xF1, 0x08, 0x0D, 0x9B, 0x94, 0x6F, 0xB1, 0x23, 0xE3, 0x0C, 0x75, 0xB9]

/-- A crafted patch: "UPS1", source_size = 0 (0x80), target_size = 1 (0x81),
one record with copy_length 0 (0x80) and xor bytes [0x01, 0x02, 0x00] that
overhang the one-byte working buffer, then an all-zero 12-byte footer. -/
def patchOverhang : List Nat :=
  [0x55, 0x50, 0x53, 0x31, 0x80, 0x81, 0x80, 0x01, 0x02, 0x00]
    ++ List.replicate 12 0


/-! ### Lemmas about the varint decoder -/

lemma read_vuint_go_none : ∀ (l : List Nat) (idx acc : Nat),
    read_vuint_go l idx acc = none ↔ ∀ x ∈ l, x &&& 0x80 = 0 := by
  intro l
  induction l with
  | nil => simp [read_vuint_go]
  | cons x rest ih =>
    intro idx acc
    by_cases hx : x &&& 0x80 ≠ 0
    · simp [read_vuint_go, hx]
    · push_neg at hx
      simp [read_vuint_go, hx, ih]

lemma read_vuint_go_bounds : ∀ (l : List Nat) (idx acc c v : Nat),
    read_vuint_go l idx acc = some (c, v) → idx + 1 ≤ c ∧ c ≤ idx + l.length := by
  intro l
  induction l with
  | nil => intro idx acc c v h; simp [read_vuint_go] at h
  | cons x rest ih =>
    intro idx acc c v h
    by_cases hx : x &&& 0x80 ≠ 0
    · rw [read_vuint_go, if_pos hx] at h
      obtain ⟨hc, _⟩ := Prod.mk.injEq .. ▸ Option.some.inj h
      simp only [List.length_cons]
      omega
    · rw [read_vuint_go, if_neg hx] at h
      have := ih (idx + 1) (acc + ((x ||| 0x80) <<< (7 * idx))) c v h
      simp only [List.length_cons]
      omega

lemma read_vuint_bounds {l : List Nat} {c v : Nat}
    (h : read_vuint l = some (c, v)) : 1 ≤ c ∧ c ≤ l.length := by
  have := read_vuint_go_bounds l 0 0 c v h
  omega

lemma read_vuint_none {l : List Nat} :
    read_vuint l = none ↔ ∀ x ∈ l, x &&& 0x80 = 0 :=
  read_vuint_go_none l 0 0

lemma read_vuint_go_spec : ∀ (l : List Nat) (idx acc c v : Nat),
    read_vuint_go l idx acc = some (c, v) →
    ∃ i, i < l.length ∧ (∀ j, j < i → l.getD j 0 &&& 0x80 = 0) ∧
      l.getD i 0 &&& 0x80 ≠ 0 ∧ c = idx + i + 1 ∧
      v = acc + ((∑ j ∈ Finset.range i, ((l.getD j 0 ||| 0x80) <<< (7 * (idx + j))))
            + ((l.getD i 0 &&& 0x7f) <<< (7 * (idx + i)))) := by
  intro l
  induction l with
  | nil => intro idx acc c v h; simp [read_vuint_go] at h
  | cons x rest ih =>
    intro idx acc c v h
    by_cases hx : x &&& 0x80 ≠ 0
    · rw [read_vuint_go, if_pos hx] at h
      obtain ⟨hc, hv⟩ := Prod.mk.injEq .. ▸ Option.some.inj h
      refine ⟨0, by simp, by omega, by simpa using hx, by omega, ?_⟩
      simpa using hv.symm
    · rw [read_vuint_go, if_neg hx] at h
      push_neg at hx
      obtain ⟨i', hi', hlow, hhigh, hc, hv⟩ :=
        ih (idx + 1) (acc + ((x ||| 0x80) <<< (7 * idx))) c v h
      refine ⟨i' + 1, by simpa using hi', ?_, by simpa using hhigh, by omega, ?_⟩
      · intro j hj
        cases j with
        | zero => simpa using hx
        | succ j' => simpa using hlow j' (by omega)
      · rw [hv, Finset.sum_range_succ']
        simp only [List.getD_cons_succ, List.getD_cons_zero]
        have hidx : ∀ j : Nat, idx + (j + 1) = idx + 1 + j := by omega
        have hsum : ∀ j : Nat,
            ((rest.getD j 0 ||| 0x80) <<< (7 * (idx + (j + 1))))
              = ((rest.getD j 0 ||| 0x80) <<< (7 * (idx + 1 + j))) := by
          intro j; rw [hidx j]
        simp only [hsum]
        have hlast : idx + (i' + 1) = idx + 1 + i' := by omega
        rw [hlast]
        simp only [Nat.add_zero]
        omega

/-! ### Lemmas about the body scan and the section iterator -/
lemma scanZero_none : ∀ l : List Nat, scanZero l = none ↔ ∀ x ∈ l, x ≠ 0 := by
  intro l
  induction l with
  | nil => simp [scanZero]
  | cons x rest ih =>
    by_cases hx : x = 0
    · subst hx; simp [scanZero]
    · rw [scanZero, if_neg hx]
      cases hs : scanZero rest with
      | none =>
        simp only [hs, List.mem_cons]
        constructor
        · rintro - y (rfl | hy)
          · exact hx
          · exact ih.mp hs y hy
        · intro _; trivial
      | some pr =>
        simp only [hs, List.mem_cons]
        constructor
        · intro h; cases h
        · intro h
          exact absurd (ih.mpr fun y hy => h y (Or.inr hy)) (by simp [hs])

lemma scanZero_some : ∀ (l xor r : List Nat), scanZero l = some (xor, r) →
    l = xor ++ r ∧ xor ≠ [] ∧ xor.getLast? = some 0 ∧
      ∀ i, i + 1 < xor.length → xor.getD i 0 ≠ 0 := by
  intro l
  induction l with
  | nil => intro xor r h; simp [scanZero] at h
  | cons x rest ih =>
    intro xor r h
    by_cases hx : x = 0
    · subst hx
      rw [scanZero, if_pos rfl] at h
      obtain ⟨hxor, hr⟩ := Prod.mk.injEq .. ▸ Option.some.inj h
      subst hxor hr
      refine ⟨rfl, by simp, by simp, by simp⟩
    · rw [scanZero, if_neg hx] at h
      cases hs : scanZero rest with
      | none => rw [hs] at h; simp at h
      | some pr =>
        rw [hs] at h
        obtain ⟨xor', r'⟩ := pr
        obtain ⟨hxor, hr⟩ := Prod.mk.injEq .. ▸ Option.some.inj h
        obtain ⟨happ, hne, hlast, hnz⟩ := ih xor' r' hs
        subst hr
        rw [← hxor]
        obtain ⟨y, ys, rfl⟩ := List.exists_cons_of_ne_nil hne
        refine ⟨by rw [happ]; rfl, by simp, ?_, ?_⟩
        · simpa [List.getLast?_cons_cons] using hlast
        · intro i hi
          cases i with
          | zero => simpa using hx
          | succ i' =>
            have hlt : i' + 1 < (y :: ys).length := by
              simp only [List.length_cons] at hi ⊢
              omega
            simpa using hnz i' hlt

lemma next_some_spec {data : List Nat} {s : UpsSection} {rest : List Nat}
    (h : UpsSectionIter.next data = some (s, rest)) :
    ∃ c, read_vuint data = some (c, s.take) ∧ data.drop c = s.xor ++ rest ∧
      s.xor ≠ [] ∧ s.xor.getLast? = some 0 ∧
      ∀ i, i + 1 < s.xor.length → s.xor.getD i 0 ≠ 0 := by
  unfold UpsSectionIter.next at h
  split at h
  · cases h
  · rename_i consumed take hv
    split at h
    · cases h
    · rename_i xor r hs
      obtain ⟨hsec, hr⟩ := Prod.mk.injEq .. ▸ Option.some.inj h
      subst hr
      obtain ⟨happ, hne, hlast, hnz⟩ := scanZero_some _ _ _ hs
      refine ⟨consumed, ?_, ?_, ?_, ?_, ?_⟩ <;> rw [← hsec] <;> simp_all

lemma next_shrinks {data : List Nat} {s : UpsSection} {rest : List Nat}
    (h : UpsSectionIter.next data = some (s, rest)) : rest.length < data.length := by
  obtain ⟨c, hv, happ, hne, -, -⟩ := next_some_spec h
  obtain ⟨hc1, hc2⟩ := read_vuint_bounds hv
  have hdl : (data.drop c).length = data.length - c := List.length_drop ..
  have hxr : (data.drop c).length = s.xor.length + rest.length := by
    rw [happ, List.length_append]
  have hxl : 1 ≤ s.xor.length := by
    cases hx : s.xor with
    | nil => exact absurd hx hne
    | cons _ _ => simp
  omega

lemma next_none_iff {data : List Nat} :
    UpsSectionIter.next data = none ↔
      read_vuint data = none ∨
        ∃ c t, read_vuint data = some (c, t) ∧ ∀ x ∈ data.drop c, x ≠ 0 := by
  unfold UpsSectionIter.next
  split
  · rename_i hv
    simp [hv]
  · rename_i consumed take hv
    split
    · rename_i hs
      constructor
      · intro _
        exact Or.inr ⟨consumed, take, hv, (scanZero_none _).mp hs⟩
      · intro _; rfl
    · rename_i xor r hs
      constructor
      · intro h; cases h
      · rintro (h | ⟨c, t, hct, hnz⟩)
        · rw [hv] at h; cases h
        · rw [hv] at hct
          obtain ⟨hc, ht⟩ := Prod.mk.injEq .. ▸ Option.some.inj hct
          subst hc
          exact absurd hs (by simp [(scanZero_none _).mpr hnz])

lemma sectionsFuel_congr : ∀ (f1 : Nat) (data : List Nat) (f2 : Nat),
    data.length < f1 → data.length < f2 →
    sectionsFuel f1 data = sectionsFuel f2 data := by
  intro f1
  induction f1 with
  | zero => intro data f2 h1 _; omega
  | succ f1' ih =>
    intro data f2 h1 h2
    cases f2 with
    | zero => omega
    | succ f2' =>
      rw [sectionsFuel, sectionsFuel]
      cases hn : UpsSectionIter.next data with
      | none => rfl
      | some pr =>
        obtain ⟨s, rest⟩ := pr
        have hlt := next_shrinks hn
        show s :: sectionsFuel f1' rest = s :: sectionsFuel f2' rest
        rw [ih rest f2' (by omega) (by omega)]

lemma sections_eq (data : List Nat) :
    sections data = (match UpsSectionIter.next data with
      | none => []
      | some (s, rest) => s :: sections rest) := by
  unfold sections
  rw [sectionsFuel]
  cases hn : UpsSectionIter.next data with
  | none => rfl
  | some pr =>
    obtain ⟨s, rest⟩ := pr
    have hlt := next_shrinks hn
    show s :: sectionsFuel data.length rest = s :: sectionsFuel (rest.length + 1) rest
    rw [sectionsFuel_congr data.length rest (rest.length + 1) (by omega) (by omega)]

lemma sections_length_le (data : List Nat) :
    (sections data).length ≤ data.length := by
  suffices hgen : ∀ (n : Nat) (d : List Nat), d.length ≤ n → (sections d).length ≤ d.length by
    exact hgen data.length data le_rfl
  intro n
  induction n with
  | zero =>
    intro d hd
    have : d = [] := List.eq_nil_of_length_eq_zero (by omega)
    subst this
    rw [sections_eq]
    rfl
  | succ n' ih =>
    intro d hd
    rw [sections_eq]
    cases hne : UpsSectionIter.next d with
    | none => simp
    | some pr =>
      obtain ⟨s, rest⟩ := pr
      have hlt := next_shrinks hne
      have := ih rest (by omega)
      simp only [List.length_cons]
      omega

lemma sections_mem_xor {data : List Nat} {s : UpsSection}
    (h : s ∈ sections data) : s.xor ≠ [] ∧ s.xor.getLast? = some 0 := by
  suffices hgen : ∀ (n : Nat) (d : List Nat), d.length ≤ n → ∀ s' ∈ sections d,
      s'.xor ≠ [] ∧ s'.xor.getLast? = some 0 by
    exact hgen data.length data le_rfl s h
  intro n
  induction n with
  | zero =>
    intro d hd s' hs'
    have : d = [] := List.eq_nil_of_length_eq_zero (by omega)
    subst this
    rw [sections_eq] at hs'
    cases hs'
  | succ n' ih =>
    intro d hd s' hs'
    rw [sections_eq] at hs'
    cases hne : UpsSectionIter.next d with
    | none => rw [hne] at hs'; cases hs'
    | some pr =>
      obtain ⟨s'', rest⟩ := pr
      rw [hne] at hs'
      have hlt := next_shrinks hne
      rcases List.mem_cons.mp hs' with rfl | hmem
      · obtain ⟨-, -, -, hxne, hlast, -⟩ := next_some_spec hne
        exact ⟨hxne, hlast⟩
      · exact ih rest (by omega) s' hmem

/-! ### Lemmas about `xor_slice`, `xorInto` and `replay` -/

lemma xor_slice_length : ∀ l r : List Nat, (xor_slice l r).length = l.length := by
  intro l
  induction l with
  | nil => intro r; cases r <;> rfl
  | cons a l' ih =>
    intro r
    cases r with
    | nil => rfl
    | cons b r' => simp [xor_slice, ih r']

lemma xor_slice_getD : ∀ (l r : List Nat) (i : Nat), i < l.length →
    (xor_slice l r).getD i 0 = (l.getD i 0) ^^^ (r.getD i 0) := by
  intro l
  induction l with
  | nil => intro r i h; simp at h
  | cons a l' ih =>
    intro r i h
    cases r with
    | nil =>
      simp [xor_slice]
    | cons b r' =>
      cases i with
      | zero => simp [xor_slice]
      | succ i' =>
        simp only [List.length_cons] at h
        show ((a ^^^ b) :: xor_slice l' r').getD (i' + 1) 0
            = ((a :: l').getD (i' + 1) 0) ^^^ ((b :: r').getD (i' + 1) 0)
        simp only [List.getD_cons_succ]
        exact ih r' i' (by omega)

lemma xorInto_length {t : List Nat} {i : Nat} (x : List Nat) (hi : i ≤ t.length) :
    (xorInto t i x).length = t.length := by
  unfold xorInto
  rw [List.length_append, xor_slice_length, List.length_take, List.length_drop]
  omega

lemma getD_take {l : List Nat} {n k : Nat} (h : k < n) :
    (l.take n).getD k 0 = l.getD k 0 := by
  by_cases hk : k < l.length
  · rw [List.getD_eq_getElem?_getD, List.getD_eq_getElem?_getD,
      List.getElem?_take, if_pos h]
  · have h1 : l.length ≤ k := by omega
    have h2 : (l.take n).length ≤ k := by rw [List.length_take]; omega
    rw [List.getD_eq_getElem?_getD, List.getD_eq_getElem?_getD,
      List.getElem?_eq_none h2, List.getElem?_eq_none h1]

lemma getD_drop {l : List Nat} {n k : Nat} :
    (l.drop n).getD k 0 = l.getD (n + k) 0 := by
  rw [List.getD_eq_getElem?_getD, List.getD_eq_getElem?_getD, List.getElem?_drop]

lemma getD_append_left {l r : List Nat} {k : Nat} (h : k < l.length) :
    ((l ++ r).getD k 0) = l.getD k 0 := by
  rw [List.getD_eq_getElem?_getD, List.getD_eq_getElem?_getD,
    List.getElem?_append, if_pos h]

lemma getD_append_right {l r : List Nat} {k : Nat} (h : l.length ≤ k) :
    ((l ++ r).getD k 0) = r.getD (k - l.length) 0 := by
  rw [List.getD_eq_getElem?_getD, List.getD_eq_getElem?_getD,
    List.getElem?_append_right h]

lemma xorInto_getD {t : List Nat} {i : Nat} (x : List Nat) (hi : i ≤ t.length)
    {k : Nat} (hk : k < t.length) :
    (xorInto t i x).getD k 0 =
      if i ≤ k then (t.getD k 0) ^^^ (x.getD (k - i) 0) else t.getD k 0 := by
  unfold xorInto
  by_cases hki : k < i
  · rw [if_neg (by omega)]
    rw [getD_append_left (by rw [List.length_take]; omega)]
    exact getD_take hki
  · rw [if_pos (by omega)]
    have hlt : (List.take i t).length = i := by rw [List.length_take]; omega
    rw [getD_append_right (by omega)]
    rw [hlt]
    by_cases hxr : k - i < (t.drop i).length
    · rw [xor_slice_getD _ _ _ hxr, getD_drop]
      congr 2
      omega
    · exfalso
      rw [List.length_drop] at hxr
      omega

lemma replay_length : ∀ (recs : List UpsSection) (t : List Nat) (c : Nat)
    (out : List Nat) (c' : Nat), replay t c recs = some (out, c') →
    out.length = t.length := by
  intro recs
  induction recs with
  | nil =>
    intro t c out c' h
    obtain ⟨ho, -⟩ := Prod.mk.injEq .. ▸ Option.some.inj h
    rw [← ho]
  | cons s rest ih =>
    intro t c out c' h
    rw [replay] at h
    split at h
    · rename_i hle
      have := ih _ _ out c' h
      rwa [xorInto_length s.xor hle] at this
    · cases h

lemma replay_cursor : ∀ (recs : List UpsSection) (t : List Nat) (c : Nat)
    (out : List Nat) (c' : Nat), replay t c recs = some (out, c') →
    c' = c + (recs.map (fun s => s.take + s.xor.length)).sum := by
  intro recs
  induction recs with
  | nil =>
    intro t c out c' h
    obtain ⟨-, hc⟩ := Prod.mk.injEq .. ▸ Option.some.inj h
    simp [← hc]
  | cons s rest ih =>
    intro t c out c' h
    rw [replay] at h
    split at h
    · have := ih _ _ out c' h
      simp only [List.map_cons, List.sum_cons]
      omega
    · cases h

lemma replay_cursor_bound : ∀ (recs : List UpsSection) (t : List Nat) (c : Nat)
    (out : List Nat) (c' : Nat), replay t c recs = some (out, c') → recs ≠ [] →
    c' ≤ t.length + ((recs.getLast?).elim 0 (fun s => s.xor.length)) := by
  intro recs
  induction recs with
  | nil => intro t c out c' _ hne; exact absurd rfl hne
  | cons s rest ih =>
    intro t c out c' h _
    rw [replay] at h
    split at h
    · rename_i hle
      cases rest with
      | nil =>
        obtain ⟨-, hc⟩ := Prod.mk.injEq .. ▸ Option.some.inj h
        simp only [List.getLast?_singleton, Option.elim_some]
        omega
      | cons s2 rest2 =>
        have hbound := ih _ _ out c' h (by simp)
        rw [xorInto_length s.xor hle] at hbound
        rw [List.getLast?_cons_cons]
        exact hbound
    · cases h

/-! ### Lemmas about `parse_patch` -/

lemma parse_patch_ok_elim {patch : List Nat} {p : UpsPatch} {body : List Nat}
    (h : parse_patch patch = .ok (p, body)) :
    ∃ s_used t_used,
      patch.take 4 = [0x55, 0x50, 0x53, 0x31] ∧
      read_vuint (patch.drop 4) = some (s_used, p.source_size) ∧
      read_vuint (patch.drop (4 + s_used)) = some (t_used, p.target_size) ∧
      4 + s_used + t_used + 12 ≤ patch.length ∧
      p.source_crc = u32le (patch.drop (patch.length - 12)) ∧
      p.target_crc = u32le (patch.drop (patch.length - 8)) ∧
      p.patch_crc = u32le (patch.drop (patch.length - 4)) ∧
      body = (patch.drop (4 + s_used + t_used)).take
        (patch.length - 12 - (4 + s_used + t_used)) := by
  unfold parse_patch at h
  split at h
  · rename_i hmagic
    split at h
    · cases h
    · rename_i s_used source_size hs
      split at h
      · cases h
      · rename_i t_used target_size ht
        dsimp only at h
        split at h
        · cases h
        · rename_i hlen
          obtain ⟨hp, hbody⟩ := Prod.mk.injEq .. ▸ Except.ok.inj h
          subst hp
          exact ⟨s_used, t_used, hmagic, hs, ht, by omega, rfl, rfl, rfl, hbody.symm⟩
  · cases h

lemma parse_patch_ok_length {patch : List Nat} {p : UpsPatch} {body : List Nat}
    (h : parse_patch patch = .ok (p, body)) : 18 ≤ patch.length := by
  obtain ⟨s_used, t_used, -, hs, ht, hlen, -⟩ := parse_patch_ok_elim h
  obtain ⟨hs1, -⟩ := read_vuint_bounds hs
  obtain ⟨ht1, -⟩ := read_vuint_bounds ht
  omega

/-! ### Lemmas about `resize` and `apply_patch_with` -/

lemma resize_length (v : List Nat) (n : Nat) : (resize v n).length = n := by
  unfold resize
  split
  · rename_i hle
    rw [List.length_take]
    omega
  · rw [List.length_append, List.length_replicate]
    omega

lemma getD_replicate_zero (n k : Nat) : (List.replicate n (0 : Nat)).getD k 0 = 0 := by
  rw [List.getD_eq_getElem?_getD, List.getElem?_replicate]
  split <;> rfl

lemma resize_getD_new {v : List Nat} {n i : Nat} (h1 : v.length ≤ i) (h2 : i < n) :
    (resize v n).getD i 0 = 0 := by
  unfold resize
  split
  · rename_i hle
    omega
  · rw [getD_append_right h1, getD_replicate_zero]

lemma apply_eq {patch : List Nat} {p : UpsPatch} {body : List Nat}
    (o : Options) (source : List Nat) (h : parse_patch patch = .ok (p, body)) :
    apply_patch_with o source patch =
      (if !o.skip_crc && !verify_crc source p.source_crc then
        some (.error .CrcMismatchOriginal)
      else if !o.skip_crc && !verify_crc (patch.take (patch.length - 4)) p.patch_crc then
        some (.error .CrcMismatchPatch)
      else
        match replay (resize source (max p.source_size p.target_size)) 0 (sections body) with
        | none => none
        | some (target, _) =>
          if !o.skip_crc && !verify_crc target p.target_crc then
            some (.error .CrcMismatchTarget)
          else some (.ok target)) := by
  unfold apply_patch_with
  rw [h]

lemma apply_err {patch : List Nat} {e : Error}
    (o : Options) (source : List Nat) (h : parse_patch patch = .error e) :
    apply_patch_with o source patch = some (.error e) := by
  unfold apply_patch_with
  rw [h]

lemma apply_eq_replay {patch : List Nat} {p : UpsPatch} {body out : List Nat}
    {c' : Nat} (o : Options) (source : List Nat)
    (h : parse_patch patch = .ok (p, body))
    (hrep : replay (resize source (max p.source_size p.target_size)) 0
        (sections body) = some (out, c')) :
    apply_patch_with o source patch =
      (if !o.skip_crc && !verify_crc source p.source_crc then
        some (.error .CrcMismatchOriginal)
      else if !o.skip_crc && !verify_crc (patch.take (patch.length - 4)) p.patch_crc then
        some (.error .CrcMismatchPatch)
      else if !o.skip_crc && !verify_crc out p.target_crc then
        some (.error .CrcMismatchTarget)
      else some (.ok out)) := by
  rw [apply_eq o source h, hrep]

/-! ### Claim theorems -/

/-- C2: for every byte slice, `read_vuint` returns `some (consumed, value)`
iff the slice contains a byte with the high bit set before being exhausted;
`consumed` is the index of the first such byte plus one; `value` is the sum
in which each continuation byte (high bit clear) at position `j` contributes
`(byte ||| 0x80) <<< (7*j)` and the terminal byte at position `i` contributes
`(byte &&& 0x7f) <<< (7*i)`; and a failed decode of the first size field is
surfaced as `MalformedPatch` by the parser. -/
theorem c2_read_vuint_spec (l : List Nat) :
    (read_vuint l = none ↔ ∀ x ∈ l, x &&& 0x80 = 0) ∧
    (∀ c v, read_vuint l = some (c, v) →
      ∃ i, i < l.length ∧ (∀ j, j < i → l.getD j 0 &&& 0x80 = 0) ∧
        l.getD i 0 &&& 0x80 ≠ 0 ∧ c = i + 1 ∧
        v = (∑ j ∈ Finset.range i, ((l.getD j 0 ||| 0x80) <<< (7 * j)))
              + ((l.getD i 0 &&& 0x7f) <<< (7 * i))) ∧
    (∀ patch : List Nat, patch.take 4 = [0x55, 0x50, 0x53, 0x31] →
      read_vuint (patch.drop 4) = none →
      parse_patch patch = .error .MalformedPatch) := by
  refine ⟨read_vuint_none, ?_, ?_⟩
  · intro c v h
    obtain ⟨i, hi, hlow, hhigh, hc, hv⟩ := read_vuint_go_spec l 0 0 c v h
    exact ⟨i, hi, hlow, hhigh, by omega, by simpa using hv⟩
  · intro patch hm hnone
    unfold parse_patch
    rw [if_pos hm, hnone]

/-- Witness for C2 at the concrete slice `[0x00, 0x85]`: the decoder consumes
two bytes and returns `(0x00 ||| 0x80) <<< 0 + (0x85 &&& 0x7f) <<< 7 = 768`. -/
theorem c2_read_vuint_witness :
    read_vuint [0x00, 0x85] = some (2, 768) ∧
    ∃ i, i < ([0x00, 0x85] : List Nat).length ∧
      (∀ j, j < i → ([0x00, 0x85] : List Nat).getD j 0 &&& 0x80 = 0) ∧
      ([0x00, 0x85] : List Nat).getD i 0 &&& 0x80 ≠ 0 ∧ 2 = i + 1 ∧
      768 = (∑ j ∈ Finset.range i,
              ((([0x00, 0x85] : List Nat).getD j 0 ||| 0x80) <<< (7 * j)))
            + ((([0x00, 0x85] : List Nat).getD i 0 &&& 0x7f) <<< (7 * i)) :=
  ⟨rfl, (c2_read_vuint_spec [0x00, 0x85]).2.1 2 768 rfl⟩

/-- C9: for every patch buffer whose first 4 bytes are not the literal ASCII
marker "UPS1" (including buffers shorter than 4 bytes), `parse_patch` fails
with `MissingHeader`. -/
theorem c9_missing_header (patch : List Nat)
    (h : patch.take 4 ≠ [0x55, 0x50, 0x53, 0x31]) :
    parse_patch patch = .error .MissingHeader := by
  unfold parse_patch
  rw [if_neg h]

/-- Witness for C9 at the concrete buffer `[1, 2, 3]` (shorter than 4 bytes,
and not the magic marker). -/
theorem c9_missing_header_witness :
    ([1, 2, 3] : List Nat).take 4 ≠ [0x55, 0x50, 0x53, 0x31] ∧
      parse_patch [1, 2, 3] = .error .MissingHeader :=
  ⟨by decide, c9_missing_header [1, 2, 3] (by decide)⟩

/-- C3 (amended): every patch buffer shorter than 18 bytes fails to parse;
the error is `MalformedPatch` when the buffer begins with the "UPS1" magic
marker, and `MissingHeader` otherwise. -/
theorem c3_short_patch_amended (patch : List Nat) (hlen : patch.length < 18) :
    (patch.take 4 = [0x55, 0x50, 0x53, 0x31] →
       parse_patch patch = .error .MalformedPatch) ∧
    (patch.take 4 ≠ [0x55, 0x50, 0x53, 0x31] →
       parse_patch patch = .error .MissingHeader) := by
  constructor
  · intro hm
    have h4 : 4 ≤ patch.length := by
      have hl := congrArg List.length hm
      rw [List.length_take] at hl
      simp only [List.length_cons, List.length_nil] at hl
      omega
    unfold parse_patch
    rw [if_pos hm]
    cases hs : read_vuint (patch.drop 4) with
    | none => rfl
    | some sv =>
      obtain ⟨s_used, source_size⟩ := sv
      obtain ⟨hs1, hs2⟩ := read_vuint_bounds hs
      rw [List.length_drop] at hs2
      dsimp only
      cases ht : read_vuint (patch.drop (4 + s_used)) with
      | none => rfl
      | some tv =>
        obtain ⟨t_used, target_size⟩ := tv
        obtain ⟨ht1, ht2⟩ := read_vuint_bounds ht
        rw [List.length_drop] at ht2
        dsimp only
        rw [if_pos (by omega)]
  · intro hm
    unfold parse_patch
    rw [if_neg hm]

/-- Counterexample to C3 as stated: the empty buffer is shorter than 18
bytes, yet `parse_patch` fails with `MissingHeader`, not `MalformedPatch`. -/
theorem c3_short_patch_counterexample :
    ([] : List Nat).length < 18 ∧
      parse_patch [] = .error .MissingHeader ∧
      Error.MissingHeader ≠ Error.MalformedPatch :=
  ⟨by decide, rfl, by decide⟩

/-- Witness for C3 (amended) at the 4-byte buffer holding only the magic. -/
theorem c3_short_patch_witness :
    ([0x55, 0x50, 0x53, 0x31] : List Nat).length < 18 ∧
      parse_patch [0x55, 0x50, 0x53, 0x31] = .error .MalformedPatch :=
  ⟨by decide,
   (c3_short_patch_amended [0x55, 0x50, 0x53, 0x31] (by decide)).1 (by decide)⟩

/-- C4: one step of the record sequence decodes a `copy_length` varint at the
current offset, then scans forward accumulating the xor span up to and
including the first zero byte (with no earlier zero byte inside the span);
if the varint decode fails, or the body is exhausted before a zero byte, the
step yields nothing — no partial record and no error; the whole sequence
unfolds step by step in body order and is finite (at most one record per
body byte). -/
theorem c4_record_sequence_spec (data : List Nat) :
    (UpsSectionIter.next data = none ↔
       (read_vuint data = none ∨
         ∃ c t, read_vuint data = some (c, t) ∧ ∀ x ∈ data.drop c, x ≠ 0)) ∧
    (∀ s rest, UpsSectionIter.next data = some (s, rest) →
       ∃ c, read_vuint data = some (c, s.take) ∧ data.drop c = s.xor ++ rest ∧
         s.xor ≠ [] ∧ s.xor.getLast? = some 0 ∧
         ∀ i, i + 1 < s.xor.length → s.xor.getD i 0 ≠ 0) ∧
    (sections data = (match UpsSectionIter.next data with
       | none => []
       | some (s, rest) => s :: sections rest)) ∧
    (sections data).length ≤ data.length :=
  ⟨next_none_iff, fun _ _ h => next_some_spec h, sections_eq data,
    sections_length_le data⟩

/-- Witness for C4 on the concrete body `[0x80, 0x01, 0x02, 0x00]`: the one
yielded record has `copy_length = 0` and xor span `[0x01, 0x02, 0x00]`. -/
theorem c4_record_sequence_witness :
    ∃ c, read_vuint [0x80, 0x01, 0x02, 0x00]
        = some (c, (⟨0, [0x01, 0x02, 0x00]⟩ : UpsSection).take) ∧
      ([0x80, 0x01, 0x02, 0x00] : List Nat).drop c
        = (⟨0, [0x01, 0x02, 0x00]⟩ : UpsSection).xor ++ [] ∧
      (⟨0, [0x01, 0x02, 0x00]⟩ : UpsSection).xor ≠ [] ∧
      (⟨0, [0x01, 0x02, 0x00]⟩ : UpsSection).xor.getLast? = some 0 ∧
      ∀ i, i + 1 < (⟨0, [0x01, 0x02, 0x00]⟩ : UpsSection).xor.length →
        (⟨0, [0x01, 0x02, 0x00]⟩ : UpsSection).xor.getD i 0 ≠ 0 :=
  (c4_record_sequence_spec [0x80, 0x01, 0x02, 0x00]).2.1
    ⟨0, [0x01, 0x02, 0x00]⟩ [] rfl

/-- C1 (amended): when `apply_patch_with` replays the record sequence, the
write cursor starts at 0 and each yielded record advances it by exactly
`copy_length + len(xor_bytes)`, which is strictly positive.  The final
cursor, however, may exceed the working buffer's length: it is only bounded
by the buffer length plus the last record's xor length, and a record whose
copy span starts beyond the buffer makes the fold panic (modelled as `none`)
rather than advance.  The original claim's "never exceeds the final length,
including for crafted patches" is refuted by `c1_cursor_exceeds_cex`. -/
theorem c1_cursor_advance_amended (body : List Nat) :
    (∀ s ∈ sections body, 0 < s.take + s.xor.length) ∧
    (∀ (t : List Nat) (recs : List UpsSection) (out : List Nat) (c' : Nat),
       replay t 0 recs = some (out, c') →
       c' = (recs.map (fun s => s.take + s.xor.length)).sum ∧
         out.length = t.length) ∧
    (∀ (t : List Nat) (c : Nat) (recs : List UpsSection) (out : List Nat)
       (c' : Nat), replay t c recs = some (out, c') → recs ≠ [] →
       c' ≤ t.length + ((recs.getLast?).elim 0 (fun s => s.xor.length))) := by
  refine ⟨?_, ?_, ?_⟩
  · intro s hs
    obtain ⟨hne, -⟩ := sections_mem_xor hs
    have h1 : 1 ≤ s.xor.length := by
      cases hx : s.xor with
      | nil => exact absurd hx hne
      | cons _ _ => simp
    omega
  · intro t recs out c' h
    exact ⟨by simpa using replay_cursor recs t 0 out c' h,
      replay_length recs t 0 out c' h⟩
  · intro t c recs out c' h hne
    exact replay_cursor_bound recs t c out c' h hne

/-- Counterexample to C1 as stated: `patchOverhang` parses (declared sizes
0 and 1, so the working buffer has final length `max 0 1 = 1`), its single
record has `copy_length = 0` and three xor bytes, and replaying it drives
the write cursor to 3 > 1 while `apply_patch_with` still succeeds. -/
theorem c1_cursor_exceeds_cex :
    parse_patch patchOverhang
        = .ok ({ source_size := 0, target_size := 1, source_crc := 0,
                 target_crc := 0, patch_crc := 0 }, [0x80, 0x01, 0x02, 0x00]) ∧
    sections [0x80, 0x01, 0x02, 0x00] = [⟨0, [0x01, 0x02, 0x00]⟩] ∧
    replay (resize [] (max 0 1)) 0 [⟨0, [0x01, 0x02, 0x00]⟩]
        = some ([0x01], 3) ∧
    apply_patch_with { skip_crc := true } [] patchOverhang
        = some (.ok [0x01]) ∧
    ¬ 3 ≤ (resize [] (max 0 1)).length :=
  ⟨rfl, rfl, rfl, rfl, by decide⟩

/-- Witness for C1 (amended) on a concrete replay: one record with
`copy_length = 1` and xor span `[0x00]` advances the cursor from 0 to 2,
within the bound `t.length + 1`. -/
theorem c1_cursor_advance_witness :
    ((⟨1, [0x00]⟩ : UpsSection) ∈ sections [0x81, 0x00] →
       0 < (⟨1, [0x00]⟩ : UpsSection).take + (⟨1, [0x00]⟩ : UpsSection).xor.length) ∧
    (2 = ([(⟨1, [0x00]⟩ : UpsSection)].map (fun s => s.take + s.xor.length)).sum ∧
      ([0x41, 0x41] : List Nat).length = ([0x41, 0x41] : List Nat).length) ∧
    2 ≤ ([0x41, 0x41] : List Nat).length
        + (([(⟨1, [0x00]⟩ : UpsSection)].getLast?).elim 0 (fun s => s.xor.length)) :=
  ⟨fun h => (c1_cursor_advance_amended [0x81, 0x00]).1 ⟨1, [0x00]⟩ h,
   (c1_cursor_advance_amended [0x81, 0x00]).2.1 [0x41, 0x41]
     [⟨1, [0x00]⟩] [0x41, 0x41] 2 rfl,
   (c1_cursor_advance_amended [0x81, 0x00]).2.2 [0x41, 0x41] 0
     [⟨1, [0x00]⟩] [0x41, 0x41] 2 rfl (by decide)⟩

/-- C10: `xor_slice` modifies exactly the first `min` of the two lengths
(positions below the min are XORed, positions at or above it are unchanged,
and the destination length is preserved); consequently, when a record's xor
span extends past the end of the working buffer while `cursor + copy_length`
is still within bounds, the replay step silently XORs only the in-bounds
prefix and continues to the next record without any error. -/
theorem c10_xor_slice_truncation :
    (∀ l r : List Nat,
      (xor_slice l r).length = l.length ∧
      (∀ i, i < min l.length r.length →
        (xor_slice l r).getD i 0 = (l.getD i 0) ^^^ (r.getD i 0)) ∧
      (∀ i, min l.length r.length ≤ i →
        (xor_slice l r).getD i 0 = l.getD i 0)) ∧
    (∀ (t : List Nat) (c : Nat) (s : UpsSection) (rest : List UpsSection),
      c + s.take ≤ t.length → t.length < c + s.take + s.xor.length →
      replay t c (s :: rest)
          = replay (xorInto t (c + s.take) s.xor) (c + s.take + s.xor.length) rest ∧
      (xorInto t (c + s.take) s.xor).length = t.length ∧
      (∀ k, k < t.length →
        (xorInto t (c + s.take) s.xor).getD k 0 =
          if c + s.take ≤ k then (t.getD k 0) ^^^ (s.xor.getD (k - (c + s.take)) 0)
          else t.getD k 0)) := by
  constructor
  · intro l r
    refine ⟨xor_slice_length l r, ?_, ?_⟩
    · intro i hi
      exact xor_slice_getD l r i (by omega)
    · intro i hi
      rcases min_le_iff.mp hi with hl | hr
      · have hxl : (xor_slice l r).length ≤ i := by rw [xor_slice_length]; omega
        rw [List.getD_eq_getElem?_getD, List.getD_eq_getElem?_getD,
          List.getElem?_eq_none hxl, List.getElem?_eq_none hl]
      · by_cases hil : i < l.length
        · rw [xor_slice_getD l r i hil,
            List.getD_eq_default _ _ (by omega : r.length ≤ i), Nat.xor_zero]
        · have hxl : (xor_slice l r).length ≤ i := by rw [xor_slice_length]; omega
          rw [List.getD_eq_getElem?_getD, List.getD_eq_getElem?_getD,
            List.getElem?_eq_none hxl, List.getElem?_eq_none (by omega)]
  · intro t c s rest hle hover
    refine ⟨?_, xorInto_length s.xor hle, ?_⟩
    · rw [replay, if_pos hle]
    · intro k hk
      exact xorInto_getD s.xor hle hk

/-- Witness for C10: XORing `[0x03]` into `[0x01, 0x02]` changes only the
first byte, and a one-byte buffer absorbs only the first of two overhanging
xor bytes while the replay continues. -/
theorem c10_xor_slice_truncation_witness :
    (xor_slice [0x01, 0x02] [0x03]).getD 0 0 = (0x01 : Nat) ^^^ 0x03 ∧
    (xor_slice [0x01, 0x02] [0x03]).getD 1 0 = (0x02 : Nat) ∧
    replay [0x05] 0 [⟨0, [0x09, 0x00]⟩]
        = replay (xorInto [0x05] 0 [0x09, 0x00]) 2 [] :=
  ⟨(c10_xor_slice_truncation.1 [0x01, 0x02] [0x03]).2.1 0 (by decide),
   (c10_xor_slice_truncation.1 [0x01, 0x02] [0x03]).2.2 1 (by decide),
   (c10_xor_slice_truncation.2 [0x05] 0 ⟨0, [0x09, 0x00]⟩ []
     (by decide) (by decide)).1⟩

/-- C7: for every patch whose declared `target_size` exceeds its declared
`source_size`, the working buffer is resized to
`max(source_size, target_size) = target_size` with every byte beyond the
source zero-filled before any XOR is applied, and a successful apply returns
a buffer of exactly `target_size` bytes. -/
theorem c7_growth (o : Options) (source patch : List Nat) (p : UpsPatch)
    (body : List Nat) (h : parse_patch patch = .ok (p, body))
    (hgrow : p.source_size < p.target_size) :
    (resize source (max p.source_size p.target_size)).length = p.target_size ∧
    (∀ i, source.length ≤ i → i < p.target_size →
      (resize source (max p.source_size p.target_size)).getD i 0 = 0) ∧
    (∀ out, apply_patch_with o source patch = some (.ok out) →
      out.length = p.target_size) := by
  have hmax : max p.source_size p.target_size = p.target_size :=
    Nat.max_eq_right (Nat.le_of_lt hgrow)
  refine ⟨by rw [hmax, resize_length], ?_, ?_⟩
  · intro i h1 h2
    rw [hmax]
    exact resize_getD_new h1 h2
  · intro out happly
    rw [apply_eq o source h] at happly
    split at happly
    · simp at happly
    · split at happly
      · simp at happly
      · split at happly
        · cases happly
        · rename_i target c' hreplay
          split at happly
          · simp at happly
          · have hout := Except.ok.inj (Option.some.inj happly)
            have hlen := replay_length _ _ _ _ _ hreplay
            rw [resize_length, hmax] at hlen
            rw [← hout]
            exact hlen

/-- Witness for C7 on `patchOverhang` (declared sizes 0 < 1): the working
buffer is resized to 1 byte and the successful apply output has 1 byte. -/
theorem c7_growth_witness :
    (resize [] (max (0 : Nat) 1)).length = 1 ∧ ([0x01] : List Nat).length = 1 :=
  ⟨(c7_growth { skip_crc := true } [] patchOverhang
      { source_size := 0, target_size := 1, source_crc := 0, target_crc := 0,
        patch_crc := 0 }
      [0x80, 0x01, 0x02, 0x00] rfl (by decide)).1,
   (c7_growth { skip_crc := true } [] patchOverhang
      { source_size := 0, target_size := 1, source_crc := 0, target_crc := 0,
        patch_crc := 0 }
      [0x80, 0x01, 0x02, 0x00] rfl (by decide)).2.2 [0x01] rfl⟩

/-- C5: for every patch that parses successfully, the metadata's three
checksums are the little-endian 32-bit words read from the last 12 bytes of
the patch — source checksum at `len-12`, target checksum at `len-8`, patch
checksum at `len-4` — and the patch-checksum verification in apply covers
exactly the bytes `patch[0 .. len-4]`: once the source check passes, apply
fails with `CrcMismatchPatch` precisely when the CRC of every byte of the
patch except the final 4 differs from the stored patch checksum. -/
theorem c5_footer_checksums (patch : List Nat) (p : UpsPatch) (body : List Nat)
    (h : parse_patch patch = .ok (p, body)) :
    p.source_crc = patch.getD (patch.length - 12) 0
        + 2 ^ 8 * patch.getD (patch.length - 11) 0
        + 2 ^ 16 * patch.getD (patch.length - 10) 0
        + 2 ^ 24 * patch.getD (patch.length - 9) 0 ∧
    p.target_crc = patch.getD (patch.length - 8) 0
        + 2 ^ 8 * patch.getD (patch.length - 7) 0
        + 2 ^ 16 * patch.getD (patch.length - 6) 0
        + 2 ^ 24 * patch.getD (patch.length - 5) 0 ∧
    p.patch_crc = patch.getD (patch.length - 4) 0
        + 2 ^ 8 * patch.getD (patch.length - 3) 0
        + 2 ^ 16 * patch.getD (patch.length - 2) 0
        + 2 ^ 24 * patch.getD (patch.length - 1) 0 ∧
    (∀ source, crc32 source = p.source_crc →
      (apply_patch_with { skip_crc := false } source patch
          = some (.error .CrcMismatchPatch)
        ↔ crc32 (patch.take (patch.length - 4)) ≠ p.patch_crc)) := by
  have h18 := parse_patch_ok_length h
  obtain ⟨s_used, t_used, -, -, -, -, hsc, htc, hpc, -⟩ := parse_patch_ok_elim h
  refine ⟨?_, ?_, ?_, ?_⟩
  · rw [hsc]
    unfold u32le
    simp only [getD_drop]
    rw [show patch.length - 12 + 0 = patch.length - 12 by omega,
      show patch.length - 12 + 1 = patch.length - 11 by omega,
      show patch.length - 12 + 2 = patch.length - 10 by omega,
      show patch.length - 12 + 3 = patch.length - 9 by omega]
  · rw [htc]
    unfold u32le
    simp only [getD_drop]
    rw [show patch.length - 8 + 0 = patch.length - 8 by omega,
      show patch.length - 8 + 1 = patch.length - 7 by omega,
      show patch.length - 8 + 2 = patch.length - 6 by omega,
      show patch.length - 8 + 3 = patch.length - 5 by omega]
  · rw [hpc]
    unfold u32le
    simp only [getD_drop]
    rw [show patch.length - 4 + 0 = patch.length - 4 by omega,
      show patch.length - 4 + 1 = patch.length - 3 by omega,
      show patch.length - 4 + 2 = patch.length - 2 by omega,
      show patch.length - 4 + 3 = patch.length - 1 by omega]
  · intro source hsrc
    rw [apply_eq { skip_crc := false } source h]
    have hv1 : verify_crc source p.source_crc = true := by
      unfold verify_crc
      simp [hsrc]
    rw [hv1]
    simp only [Bool.not_false, Bool.not_true, Bool.true_and, Bool.and_false,
      Bool.false_and, if_false, Bool.false_eq_true]
    by_cases hp2 : crc32 (patch.take (patch.length - 4)) = p.patch_crc
    · have hv2 : verify_crc (patch.take (patch.length - 4)) p.patch_crc = true := by
        unfold verify_crc
        simp [hp2]
      rw [hv2]
      simp only [Bool.not_true, Bool.and_false]
      constructor
      · intro hres
        exfalso
        rw [if_neg (by simp)] at hres
        split at hres
        · cases hres
        · split at hres
          · exact Except.noConfusion (Option.some.inj hres) (fun heq => by cases heq)
          · exact Except.noConfusion (Option.some.inj hres)
      · intro hne
        exact absurd hp2 hne
    · have hv2 : verify_crc (patch.take (patch.length - 4)) p.patch_crc = false := by
        unfold verify_crc
        simp [hp2]
      rw [hv2]
      rw [show (!false : Bool) = true from rfl, if_pos rfl]
      exact ⟨fun _ => hp2, fun _ => rfl⟩

/-- Witness for C5 on `patchOverhang` (all three stored checksums are 0, the
bytes of its all-zero footer). -/
theorem c5_footer_checksums_witness :
    ((0 : Nat) = patchOverhang.getD (patchOverhang.length - 12) 0
        + 2 ^ 8 * patchOverhang.getD (patchOverhang.length - 11) 0
        + 2 ^ 16 * patchOverhang.getD (patchOverhang.length - 10) 0
        + 2 ^ 24 * patchOverhang.getD (patchOverhang.length - 9) 0) ∧
    (apply_patch_with { skip_crc := false } [] patchOverhang
        = some (.error .CrcMismatchPatch)
      ↔ crc32 (patchOverhang.take (patchOverhang.length - 4)) ≠ 0) :=
  ⟨(c5_footer_checksums patchOverhang
      { source_size := 0, target_size := 1, source_crc := 0, target_crc := 0,
        patch_crc := 0 }
      [0x80, 0x01, 0x02, 0x00] rfl).1,
   (c5_footer_checksums patchOverhang
      { source_size := 0, target_size := 1, source_crc := 0, target_crc := 0,
        patch_crc := 0 }
      [0x80, 0x01, 0x02, 0x00] rfl).2.2.2 [] rfl⟩

/-- C6: parse failures propagate unchanged for every option; with checksums
enabled, apply verifies the source CRC (failing `CrcMismatchOriginal`) and
then the patch CRC (failing `CrcMismatchPatch`) after parsing but before the
XOR pass, and the target CRC (failing `CrcMismatchTarget`) only after the
full replay; `skip_crc` bypasses exactly these three checks, all uniformly —
with it set, no CRC error can be produced — and a buffer is returned only
when every enabled check has passed. -/
theorem c6_checksum_gating (source patch : List Nat) :
    (∀ e, parse_patch patch = .error e →
       ∀ o, apply_patch_with o source patch = some (.error e)) ∧
    (∀ p body, parse_patch patch = .ok (p, body) →
      (verify_crc source p.source_crc = false →
         apply_patch_with { skip_crc := false } source patch
           = some (.error .CrcMismatchOriginal)) ∧
      (verify_crc source p.source_crc = true →
       verify_crc (patch.take (patch.length - 4)) p.patch_crc = false →
         apply_patch_with { skip_crc := false } source patch
           = some (.error .CrcMismatchPatch)) ∧
      (∀ out c', verify_crc source p.source_crc = true →
        verify_crc (patch.take (patch.length - 4)) p.patch_crc = true →
        replay (resize source (max p.source_size p.target_size)) 0 (sections body)
            = some (out, c') →
        verify_crc out p.target_crc = false →
          apply_patch_with { skip_crc := false } source patch
            = some (.error .CrcMismatchTarget)) ∧
      (∀ e, apply_patch_with { skip_crc := true } source patch
          = some (.error e) → False) ∧
      (∀ out, apply_patch_with { skip_crc := false } source patch
          = some (.ok out) →
        verify_crc source p.source_crc = true ∧
        verify_crc (patch.take (patch.length - 4)) p.patch_crc = true ∧
        verify_crc out p.target_crc = true ∧
        apply_patch_with { skip_crc := true } source patch = some (.ok out))) := by
  refine ⟨fun e he o => apply_err o source he, ?_⟩
  intro p body h
  refine ⟨?_, ?_, ?_, ?_, ?_⟩
  · intro hv1
    rw [apply_eq { skip_crc := false } source h, hv1]
    rfl
  · intro hv1 hv2
    rw [apply_eq { skip_crc := false } source h, hv1, hv2]
    rfl
  · intro out c' hv1 hv2 hrep hv3
    rw [apply_eq_replay { skip_crc := false } source h hrep, hv1, hv2, hv3]
    rfl
  · intro e happly
    cases hrep : replay (resize source (max p.source_size p.target_size)) 0
        (sections body) with
    | none =>
      rw [apply_eq { skip_crc := true } source h, hrep] at happly
      exact Option.noConfusion happly
    | some pr =>
      obtain ⟨target, c'⟩ := pr
      rw [apply_eq_replay { skip_crc := true } source h hrep] at happly
      exact Except.noConfusion (Option.some.inj happly)
  · intro out happly
    cases hv1 : verify_crc source p.source_crc with
    | false =>
      rw [apply_eq { skip_crc := false } source h, hv1] at happly
      exact Except.noConfusion (Option.some.inj happly)
    | true =>
      cases hv2 : verify_crc (patch.take (patch.length - 4)) p.patch_crc with
      | false =>
        rw [apply_eq { skip_crc := false } source h, hv1, hv2] at happly
        exact Except.noConfusion (Option.some.inj happly)
      | true =>
        cases hrep : replay (resize source (max p.source_size p.target_size)) 0
            (sections body) with
        | none =>
          rw [apply_eq { skip_crc := false } source h, hv1, hv2, hrep] at happly
          exact Option.noConfusion happly
        | some pr =>
          obtain ⟨target, c'⟩ := pr
          cases hv3 : verify_crc target p.target_crc with
          | false =>
            rw [apply_eq_replay { skip_crc := false } source h hrep,
              hv1, hv2, hv3] at happly
            exact Except.noConfusion (Option.some.inj happly)
          | true =>
            rw [apply_eq_replay { skip_crc := false } source h hrep,
              hv1, hv2, hv3] at happly
            have hout := Except.ok.inj (Option.some.inj happly)
            refine ⟨rfl, rfl, hout ▸ hv3, ?_⟩
            rw [apply_eq_replay { skip_crc := true } source h hrep, hout]
            rfl

/-- Witness for C6 on `patchOverhang` with the empty source: the source CRC
check passes (`crc32 [] = 0`), the patch CRC check fails, and apply reports
`CrcMismatchPatch`. -/
theorem c6_checksum_gating_witness :
    apply_patch_with { skip_crc := false } [] patchOverhang
      = some (.error .CrcMismatchPatch) :=
  ((c6_checksum_gating [] patchOverhang).2
      { source_size := 0, target_size := 1, source_crc := 0, target_crc := 0,
        patch_crc := 0 }
      [0x80, 0x01, 0x02, 0x00] rfl).2.1 rfl rfl

/-- C8: applying the hand-constructed minimal patch (source_size 4,
target_size 4, one record with copy_length 0 and xor bytes [0x01, 0x00],
correct checksums for all three fields) to "AAAA", with checksums enabled,
yields exactly 0x40 0x41 0x41 0x41 — first byte 0x41 XOR 0x01 = 0x40, the
remaining three bytes unchanged. -/
theorem c8_concrete_scenario :
    parse_patch patchAAAA
        = .ok (UpsPatch.mk 4 4 0x9B0D08F1 0x23B16F94 0xB9750CE3,
               [0x80, 0x01, 0x00]) ∧
    crc32 [0x41, 0x41, 0x41, 0x41] = 0x9B0D08F1 ∧
    crc32 [0x40, 0x41, 0x41, 0x41] = 0x23B16F94 ∧
    crc32 (patchAAAA.take (patchAAAA.length - 4)) = 0xB9750CE3 ∧
    sections [0x80, 0x01, 0x00] = [⟨0, [0x01, 0x00]⟩] ∧
    apply_patch [0x41, 0x41, 0x41, 0x41] patchAAAA
      = some (.ok [0x40, 0x41, 0x41, 0x41]) :=
  ⟨rfl, rfl, rfl, rfl, rfl, rfl⟩
